import Mathlib

/-!
# Q16.16 fixed-point header `fix16.h`

A shallow embedding of the inline functions, constants and literal macros of
`src/fix16.h`.

Conventions of the embedding.

* A `fix16_t` (`int32_t`) or `int` value is an `Int` in the range described by `InInt32`.
* An `unsigned` value is a `Nat` below `2 ^ 32`, a `uint64_t` / `unsigned long long`
  value a `Nat` below `2 ^ 64`.
* The constants `fix16_one`, `fix16_minimum`, ... are written in the header with the suffix
  `UL`, so they have type `unsigned long`.  The width of `unsigned long` is a property of the
  target (32 bits on the ARM Cortex-M and on 32-bit x86 named in the header, 64 bits on LP64
  hosts), so every function whose arithmetic is carried out in `unsigned long` takes that
  width as its first argument `w`.
* Conversions between integer types follow C: conversion to an unsigned type reduces modulo
  `2 ^ bits` (`toUnsigned`), conversion of an unsigned value to `int32_t` keeps the low 32
  bits and reads them in two's complement (`toInt32`).
-/

namespace Fix16

/-! ## Machine integers -/

/-- Least `int32_t` value. -/
def INT32_MIN : Int := -2147483648

/-- Greatest `int32_t` value. -/
def INT32_MAX : Int := 2147483647

/-- The integer `x` is a value of the type `int32_t` (so of `fix16_t` and of `int`). -/
def InInt32 (x : Int) : Prop := INT32_MIN ≤ x ∧ x ≤ INT32_MAX

instance (x : Int) : Decidable (InInt32 x) := by
  unfold InInt32; exact inferInstance

/-- Conversion of a signed value to an unsigned type of `bits` bits. -/
def toUnsigned (bits : Nat) (x : Int) : Nat := (x % (2 : Int) ^ bits).toNat

/-- Conversion of an unsigned value to `int32_t`: the low 32 bits in two's complement. -/
def toInt32 (u : Nat) : Int :=
  if u % 2 ^ 32 < 2 ^ 31 then ((u % 2 ^ 32 : Nat) : Int) else ((u % 2 ^ 32 : Nat) : Int) - 2 ^ 32

/-- Addition in an unsigned type of `bits` bits. -/
def uadd (bits : Nat) (x y : Nat) : Nat := (x + y) % 2 ^ bits

/-- Subtraction in an unsigned type of `bits` bits. -/
def usub (bits : Nat) (x y : Nat) : Nat := (x % 2 ^ bits + (2 ^ bits - y % 2 ^ bits)) % 2 ^ bits

/-- Multiplication in an unsigned type of `bits` bits. -/
def umul (bits : Nat) (x y : Nat) : Nat := (x * y) % 2 ^ bits

/-- Unary minus in an unsigned type of `bits` bits. -/
def uneg (bits : Nat) (x : Nat) : Nat := (2 ^ bits - x % 2 ^ bits) % 2 ^ bits

/-- Left shift in an unsigned type of `bits` bits. -/
def ushl (bits : Nat) (x s : Nat) : Nat := (x <<< s) % 2 ^ bits

/-- Addition of two `int32_t` values kept in 32 bits (two's complement): the 32-bit signed
sum. -/
def int32_add (x y : Int) : Int := toInt32 (toUnsigned 32 (x + y))

/-! ## Constants (`#define fix16_... 0x...UL`) -/

/-- The macro `fix16_maximum`, `0x7FFFFFFFUL`. -/
def fix16_maximum : Nat := 0x7FFFFFFF

/-- The macro `fix16_minimum`, `0x80000000UL`. -/
def fix16_minimum : Nat := 0x80000000

/-- The macro `fix16_overflow`, `0x80000000UL`. -/
def fix16_overflow : Nat := 0x80000000

/-- The macro `fix16_zero`, `0x00000000UL`. -/
def fix16_zero : Nat := 0x00000000

/-- The macro `fix16_half`, `0x00008000UL`. -/
def fix16_half : Nat := 0x00008000

/-- The macro `fix16_one`, `0x00010000UL`. -/
def fix16_one : Nat := 0x00010000

/-- The macro `fix16_two`, `0x00020000UL`. -/
def fix16_two : Nat := 0x00020000

/-- The macro `fix16_pi`, `0x0003243FUL`. -/
def fix16_pi : Nat := 0x0003243F

/-- The macro `fix16_e`, `0x0002B7E1UL`. -/
def fix16_e : Nat := 0x0002B7E1

/-! ## Conversions between `fix16_t` and `int` -/

/-- The function `fix16_to_int`:
`if (a >= 0) return (a + (fix16_one >> 1)) / fix16_one; return (a - (fix16_one >> 1)) / fix16_one;`.
Both operands of `+`, `-` and `/` are brought to `unsigned long` (width `w`), and the
quotient is converted to the return type `int`. -/
def fix16_to_int (w : Nat) (a : Int) : Int :=
  if a ≥ 0 then
    toInt32 (uadd w (toUnsigned w a) (fix16_one >>> 1) / fix16_one)
  else
    toInt32 (usub w (toUnsigned w a) (fix16_one >>> 1) / fix16_one)

/-- The function `fix16_from_int`: `return a * fix16_one;`.  The product is formed in
`unsigned long` (width `w`) and converted to the return type `fix16_t`. -/
def fix16_from_int (w : Nat) (a : Int) : Int :=
  toInt32 (umul w (toUnsigned w a) fix16_one)

/-! ## Rounding helpers -/

/-- The function `fix16_floor`: `return (x & 0xFFFF0000UL);`. -/
def fix16_floor (w : Nat) (x : Int) : Int :=
  toInt32 (toUnsigned w x &&& 0xFFFF0000)

/-- The function `fix16_ceil`:
`return (x & 0xFFFF0000UL) + (x & 0x0000FFFFUL ? fix16_one : 0);`. -/
def fix16_ceil (w : Nat) (x : Int) : Int :=
  toInt32 (uadd w (toUnsigned w x &&& 0xFFFF0000)
    (if toUnsigned w x &&& 0x0000FFFF ≠ 0 then fix16_one else 0))

/-- The function `fix16_round`: `return fix16_floor(x + 0x00008000UL);`.  The sum is an
`unsigned long`, converted to `fix16_t` when it is passed to `fix16_floor`. -/
def fix16_round (w : Nat) (x : Int) : Int :=
  fix16_floor w (toInt32 (uadd w (toUnsigned w x) 0x00008000))

/-- The function `fix16_min`: `return (x < y ? x : y);`. -/
def fix16_min (x y : Int) : Int := if x < y then x else y

/-- The function `fix16_max`: `return (x > y ? x : y);`. -/
def fix16_max (x y : Int) : Int := if x > y then x else y

/-- The function `fix16_clamp`: `return fix16_min(fix16_max(x, lo), hi);`. -/
def fix16_clamp (x lo hi : Int) : Int := fix16_min (fix16_max x lo) hi

/-! ## Compile-time literals: `F16C(i, m)` and `F16(x)` -/

/-- Numeric value of a decimal digit sequence (most significant digit first) written after
digits whose value is `acc`. -/
def decimalValue (acc : Nat) (ds : List (Fin 10)) : Nat :=
  ds.foldl (fun a d => 10 * a + d.val) acc

/-- The macro `FIXMATH_CONSTANT_POW10(times)`: a chain of `times == k` tests for `k` from 0 to
7 whose last alternative is `100000000ULL`.  The argument is kept as an integer: a `size_t`
difference that wrapped around is, like a negative integer, none of 0..7. -/
def FIXMATH_CONSTANT_POW10 (times : Int) : Nat :=
  if times = 0 then 1
  else if times = 1 then 10
  else if times = 2 then 100
  else if times = 3 then 1000
  else if times = 4 then 10000
  else if times = 5 then 100000
  else if times = 6 then 1000000
  else if times = 7 then 10000000
  else 100000000

/-- The macro `FIXMATH_TOKLEN(token)`: `sizeof(#token) - 1`, where the string `#token` occupies
one byte per character and one for the terminator. -/
def FIXMATH_TOKLEN (token : List (Fin 10)) : Nat := (token.length + 1) - 1

/-- The macro `FIXMATH_CONVERT_MANTISSA(m)`.  The token `1 ## m ## ULL` is the decimal literal
made of the digit 1 followed by the digits of `m`; all arithmetic is `unsigned long long`
(64 bits) and the quotient is cast to `unsigned` (32 bits). -/
def FIXMATH_CONVERT_MANTISSA (m : List (Fin 10)) : Nat :=
  let lit := decimalValue 1 m % 2 ^ 64
  let frac := usub 64 lit (FIXMATH_CONSTANT_POW10 (FIXMATH_TOKLEN m))
  let scaled := umul 64 frac (FIXMATH_CONSTANT_POW10 (5 - (FIXMATH_TOKLEN m : Int)))
  let prod := umul 64 (umul 64 scaled 100000) 65536
  let sum := uadd 64 prod 5000000000
  (sum / 10000000000) % 2 ^ 32

/-- The macro `FIXMATH_COMBINE_I_M(i, m)`: `((i) << 16) | (FIXMATH_CONVERT_MANTISSA(m) & 0xFFFF)`
on an `unsigned` integer part `i`. -/
def FIXMATH_COMBINE_I_M (i : Nat) (m : List (Fin 10)) : Nat :=
  ushl 32 i 16 ||| (FIXMATH_CONVERT_MANTISSA m &&& 0xFFFF)

/-- The integer-part argument of `F16C` as it is written: an optional leading `-` (which the
macro tests with `#i[0] == '-'`) followed by a decimal magnitude. -/
structure IntToken where
  /-- The token starts with the character `-`. -/
  minus : Bool
  /-- The decimal number written after the sign. -/
  magnitude : Nat
  deriving DecidableEq, Repr

/-- Value of the integer-part token as a C integer constant expression. -/
def IntToken.value (i : IntToken) : Int :=
  if i.minus then -(i.magnitude : Int) else (i.magnitude : Int)

/-- The macro `F16C(i, m)`:
`(fix16_t)((#i[0] == '-') ? -FIXMATH_COMBINE_I_M((unsigned)((i) * -1), m)
                          : FIXMATH_COMBINE_I_M((unsigned)i, m))`. -/
def F16C (i : IntToken) (m : List (Fin 10)) : Int :=
  toInt32
    (if i.minus then uneg 32 (FIXMATH_COMBINE_I_M (toUnsigned 32 (i.value * -1)) m)
     else FIXMATH_COMBINE_I_M (toUnsigned 32 i.value) m)

/-- The cast `(fix16_t)` of a fractional value: the fraction is discarded (truncation toward
zero). -/
def truncToInt (q : ℚ) : Int := if 0 ≤ q then ⌊q⌋ else ⌈q⌉

/-- The macro `F16(x)`:
`((fix16_t)(((x) >= 0) ? ((x) * 65536.0 + 0.5) : ((x) * 65536.0 - 0.5)))`, evaluated over exact
rationals instead of `double`. -/
def F16 (x : ℚ) : Int :=
  truncToInt (if x ≥ 0 then x * 65536 + 1 / 2 else x * 65536 - 1 / 2)

/-- The rational number denoted by the decimal literal `i.m`. -/
def decimalLiteral (i : IntToken) (m : List (Fin 10)) : ℚ :=
  let a : ℚ := (i.magnitude : ℚ) + (decimalValue 0 m : ℚ) / (10 : ℚ) ^ m.length
  if i.minus then -a else a

/-- The number `M` of the literal's description: the digits of `m` padded on the right with
zeros to five digits. -/
def paddedMantissa (m : List (Fin 10)) : Nat :=
  decimalValue 0 (m ++ List.replicate (5 - m.length) 0)

/-- Exact (unreduced) values of the `unsigned long long` intermediates of
`FIXMATH_CONVERT_MANTISSA(m)`, in evaluation order: the literal `1m`, the two powers of ten,
the difference, the padded mantissa, the two products and the sum. -/
def mantissaIntermediates (m : List (Fin 10)) : List Nat :=
  let lit := decimalValue 1 m
  let p1 := FIXMATH_CONSTANT_POW10 (FIXMATH_TOKLEN m)
  let p2 := FIXMATH_CONSTANT_POW10 (5 - (FIXMATH_TOKLEN m : Int))
  let frac := lit - p1
  let scaled := frac * p2
  [lit, p1, p2, frac, scaled, scaled * 100000, scaled * 100000 * 65536,
   scaled * 100000 * 65536 + 5000000000]

/-! ## Integer conversions: auxiliary facts -/

/-- The shift `fix16_one >> 1` is `0x8000`. -/
theorem fix16_one_shiftRight_one : fix16_one >>> 1 = 32768 := by decide

/-- On the integers of `[-32768, 32767]` the conversion from `int` is the exact scaling. -/
theorem fix16_from_int_eq (w : Nat) (n : Int) (hw : w = 32 ∨ w = 64)
    (hlo : -32768 ≤ n) (hhi : n ≤ 32767) : fix16_from_int w n = n * 65536 := by
  rcases hw with rfl | rfl <;>
  · unfold fix16_from_int toInt32 umul toUnsigned fix16_one
    omega

/-- On non-negative arguments the unsigned quotient of `fix16_to_int` is the integer one. -/
theorem fix16_to_int_nonneg (w : Nat) (a : Int) (hw : w = 32 ∨ w = 64)
    (h0 : 0 ≤ a) (h1 : a ≤ 2147483647) : fix16_to_int w a = (a + 32768) / 65536 := by
  rcases hw with rfl | rfl <;>
  · unfold fix16_to_int toInt32 uadd toUnsigned
    rw [if_pos (by omega), fix16_one_shiftRight_one]
    unfold fix16_one
    omega

/-- With a 32-bit `unsigned long` the negative branch of `fix16_to_int` divides the
two's-complement bit pattern, which lands `65536` above the signed quotient. -/
theorem fix16_to_int_neg_32 (a : Int) (h0 : a < 0) (h1 : -2147483648 ≤ a) :
    fix16_to_int 32 a = (a - 32768) / 65536 + 65536 := by
  unfold fix16_to_int toInt32 usub toUnsigned
  rw [if_neg (by omega), fix16_one_shiftRight_one]
  unfold fix16_one
  omega

/-- With a 64-bit `unsigned long` the negative branch of `fix16_to_int` yields the floor of
`(a - 32768) / 65536` (the unsigned division rounds the bit pattern down). -/
theorem fix16_to_int_neg_64 (a : Int) (h0 : a < 0) (h1 : -2147483648 ≤ a) :
    fix16_to_int 64 a = (a - 32768) / 65536 := by
  unfold fix16_to_int toInt32 usub toUnsigned
  rw [if_neg (by omega), fix16_one_shiftRight_one]
  unfold fix16_one
  omega

/-- The round trip holds for the non-negative integers of the range. -/
theorem fix16_round_trip_nonneg (w : Nat) (n : Int) (hw : w = 32 ∨ w = 64)
    (hlo : 0 ≤ n) (hhi : n ≤ 32767) : fix16_to_int w (fix16_from_int w n) = n := by
  rw [fix16_from_int_eq w n hw (by omega) hhi, fix16_to_int_nonneg w _ hw (by omega) (by omega)]
  omega

/-- For every negative integer of the range the round trip misses: with a 32-bit
`unsigned long` it returns `n + 65535`, with a 64-bit one `n - 1`. -/
theorem fix16_round_trip_neg (n : Int) (hlo : -32768 ≤ n) (hhi : n < 0) :
    fix16_to_int 32 (fix16_from_int 32 n) = n + 65535 ∧
    fix16_to_int 64 (fix16_from_int 64 n) = n - 1 := by
  rw [fix16_from_int_eq 32 n (Or.inl rfl) hlo (by omega),
    fix16_from_int_eq 64 n (Or.inr rfl) hlo (by omega),
    fix16_to_int_neg_32 _ (by omega) (by omega), fix16_to_int_neg_64 _ (by omega) (by omega)]
  omega

/-! ## C1: the round trip through `fix16_from_int` and `fix16_to_int` -/

/-- C1 (evaluation of the code where the claim fails): for `n = -1` and `n = -2` the value
`fix16_to_int(fix16_from_int(n))` is not `n`.  With a 32-bit `unsigned long` it is `65534`
and `65533`, with a 64-bit `unsigned long` it is `-2` and `-3`; `fix16_from_int` itself
returns the expected `-65536` and `-131072`. -/
theorem fix16_round_trip_fails_at_negative :
    fix16_from_int 32 (-1) = -65536 ∧ fix16_from_int 64 (-1) = -65536 ∧
    fix16_from_int 32 (-2) = -131072 ∧ fix16_from_int 64 (-2) = -131072 ∧
    fix16_to_int 32 (fix16_from_int 32 (-1)) = 65534 ∧
    fix16_to_int 64 (fix16_from_int 64 (-1)) = -2 ∧
    fix16_to_int 32 (fix16_from_int 32 (-2)) = 65533 ∧
    fix16_to_int 64 (fix16_from_int 64 (-2)) = -3 := by
  decide

/-! ## C3: `fix16_from_int` scales by `2 ^ 16` -/

/-- C3: for every integer `n` with `-32768 ≤ n ≤ 32767`, and for either width of
`unsigned long`, `fix16_from_int(n)` read as a signed 32-bit value is exactly `n * 65536`,
that product is an `int32_t` value, and `fix16_from_int(1)` is `fix16_one`. -/
theorem fix16_from_int_scales (w : Nat) (n : Int) (hw : w = 32 ∨ w = 64)
    (hlo : -32768 ≤ n) (hhi : n ≤ 32767) :
    fix16_from_int w n = n * 65536 ∧ InInt32 (n * 65536) ∧
    fix16_from_int w 1 = toInt32 fix16_one ∧ toInt32 fix16_one = 65536 := by
  refine ⟨fix16_from_int_eq w n hw hlo hhi, ?_, ?_, by decide⟩
  · unfold InInt32 INT32_MIN INT32_MAX
    omega
  · rw [fix16_from_int_eq w 1 hw (by omega) (by omega)]
    decide

/-- C3 at `n = -32768` with a 32-bit `unsigned long`. -/
theorem fix16_from_int_scales_witness :
    fix16_from_int 32 (-32768) = -32768 * 65536 ∧ InInt32 (-32768 * 65536) ∧
    fix16_from_int 32 1 = toInt32 fix16_one ∧ toInt32 fix16_one = 65536 :=
  fix16_from_int_scales 32 (-32768) (Or.inl rfl) (by decide) (by decide)

/-! ## C5: extreme values and the overflow sentinel -/

/-- C5: `fix16_overflow` and `fix16_minimum` are the same constant; as a `fix16_t` that value
is `-2147483648`, `fix16_maximum` as a `fix16_t` is `2147483647`; every 32-bit pattern read as
a `fix16_t`, and every `fix16_t` value `x`, lies between the two under signed comparison. -/
theorem fix16_minimum_maximum_bounds (x : Int) (u : Nat) (hx : InInt32 x) :
    fix16_overflow = fix16_minimum ∧
    toInt32 fix16_overflow = toInt32 fix16_minimum ∧
    toInt32 fix16_minimum = -2147483648 ∧
    toInt32 fix16_maximum = 2147483647 ∧
    (toInt32 fix16_minimum ≤ toInt32 u ∧ toInt32 u ≤ toInt32 fix16_maximum) ∧
    (toInt32 fix16_minimum ≤ x ∧ x ≤ toInt32 fix16_maximum) := by
  have hmin : toInt32 fix16_minimum = -2147483648 := by decide
  have hmax : toInt32 fix16_maximum = 2147483647 := by decide
  refine ⟨rfl, rfl, hmin, hmax, ?_, ?_⟩
  · rw [hmin, hmax]
    unfold toInt32
    omega
  · rw [hmin, hmax]
    unfold InInt32 INT32_MIN INT32_MAX at hx
    omega

/-- C5 at `x = -1` and the bit pattern `0xFFFFFFFF`. -/
theorem fix16_minimum_maximum_bounds_witness :
    InInt32 (-1) ∧
    (fix16_overflow = fix16_minimum ∧
    toInt32 fix16_overflow = toInt32 fix16_minimum ∧
    toInt32 fix16_minimum = -2147483648 ∧
    toInt32 fix16_maximum = 2147483647 ∧
    (toInt32 fix16_minimum ≤ toInt32 4294967295 ∧
      toInt32 4294967295 ≤ toInt32 fix16_maximum) ∧
    (toInt32 fix16_minimum ≤ -1 ∧ -1 ≤ toInt32 fix16_maximum)) :=
  ⟨by decide, fix16_minimum_maximum_bounds (-1) 4294967295 (by decide)⟩

/-! ## C8: additivity of `fix16_from_int` -/

/-- C8: for integers `a`, `b` with `a`, `b` and `a + b` in `[-32768, 32767]`, the sum of
`fix16_from_int(a)` and `fix16_from_int(b)` is an `int32_t` value (no overflow), it equals
`fix16_from_int(a + b)`, and so does the 32-bit signed sum of the two; in particular the
32-bit signed sum of `fix16_from_int(5)` and `fix16_from_int(3)` is
`fix16_from_int(8) = 524288`. -/
theorem fix16_from_int_additive (w : Nat) (a b : Int) (hw : w = 32 ∨ w = 64)
    (ha : -32768 ≤ a ∧ a ≤ 32767) (hb : -32768 ≤ b ∧ b ≤ 32767)
    (hab : -32768 ≤ a + b ∧ a + b ≤ 32767) :
    InInt32 (fix16_from_int w a + fix16_from_int w b) ∧
    fix16_from_int w a + fix16_from_int w b = fix16_from_int w (a + b) ∧
    int32_add (fix16_from_int w a) (fix16_from_int w b) = fix16_from_int w (a + b) ∧
    int32_add (fix16_from_int w 5) (fix16_from_int w 3) = fix16_from_int w 8 ∧
    fix16_from_int w 8 = 524288 := by
  have h8 : fix16_from_int w 8 = 524288 := by
    rw [fix16_from_int_eq w 8 hw (by omega) (by omega)]; rfl
  have h5 : fix16_from_int w 5 = 327680 := by
    rw [fix16_from_int_eq w 5 hw (by omega) (by omega)]; rfl
  have h3 : fix16_from_int w 3 = 196608 := by
    rw [fix16_from_int_eq w 3 hw (by omega) (by omega)]; rfl
  rw [h8, h5, h3, fix16_from_int_eq w a hw ha.1 ha.2, fix16_from_int_eq w b hw hb.1 hb.2,
    fix16_from_int_eq w (a + b) hw hab.1 hab.2]
  refine ⟨?_, by omega, ?_, by decide, rfl⟩
  · unfold InInt32 INT32_MIN INT32_MAX
    omega
  · unfold int32_add toInt32 toUnsigned
    omega

/-- C8 at `a = 5`, `b = 3` with a 32-bit `unsigned long`. -/
theorem fix16_from_int_additive_witness :
    InInt32 (fix16_from_int 32 5 + fix16_from_int 32 3) ∧
    fix16_from_int 32 5 + fix16_from_int 32 3 = fix16_from_int 32 (5 + 3) ∧
    int32_add (fix16_from_int 32 5) (fix16_from_int 32 3) = fix16_from_int 32 (5 + 3) ∧
    int32_add (fix16_from_int 32 5) (fix16_from_int 32 3) = fix16_from_int 32 8 ∧
    fix16_from_int 32 8 = 524288 :=
  fix16_from_int_additive 32 5 3 (Or.inl rfl) (by decide) (by decide) (by decide)

/-! ## C9: `fix16_to_int` on non-negative values -/

/-- C9: for every `fix16_t` value `a` with `0 ≤ a ≤ 2147483647`, and for either width of
`unsigned long`, `fix16_to_int(a)` is `⌊(a + 32768) / 65536⌋`; the unsigned addition
`a + (fix16_one >> 1)` does not wrap; the result `r` lies in `[0, 32768]`; and `r` is the
integer nearest to `a / 65536` with exact halves rounded up, that is
`a - 32768 < 65536 * r ≤ a + 32768`, with `r = a / 65536 + 1` when the low 16 bits of `a`
are `0x8000`. -/
theorem fix16_to_int_nonneg_nearest (w : Nat) (a : Int) (hw : w = 32 ∨ w = 64)
    (h0 : 0 ≤ a) (h1 : a ≤ 2147483647) :
    fix16_to_int w a = (a + 32768) / 65536 ∧
    toUnsigned w a + (fix16_one >>> 1) < 2 ^ w ∧
    ((toUnsigned w a + (fix16_one >>> 1) : Nat) : Int) = a + 32768 ∧
    (0 ≤ fix16_to_int w a ∧ fix16_to_int w a ≤ 32768) ∧
    (a - 32768 < 65536 * fix16_to_int w a ∧ 65536 * fix16_to_int w a ≤ a + 32768) ∧
    (a % 65536 = 32768 → fix16_to_int w a = a / 65536 + 1) := by
  rw [fix16_to_int_nonneg w a hw h0 h1, fix16_one_shiftRight_one]
  refine ⟨rfl, ?_, ?_, by omega, by omega, by omega⟩
  · rcases hw with rfl | rfl <;>
    · unfold toUnsigned
      omega
  · rcases hw with rfl | rfl <;>
    · unfold toUnsigned
      omega

/-- C9 at the half-way value `a = 98304` (1.5) with a 32-bit `unsigned long`: the result
is 2. -/
theorem fix16_to_int_nonneg_nearest_witness :
    fix16_to_int 32 98304 = (98304 + 32768) / 65536 ∧
    toUnsigned 32 98304 + (fix16_one >>> 1) < 2 ^ 32 ∧
    ((toUnsigned 32 98304 + (fix16_one >>> 1) : Nat) : Int) = 98304 + 32768 ∧
    (0 ≤ fix16_to_int 32 98304 ∧ fix16_to_int 32 98304 ≤ 32768) ∧
    ((98304 : Int) - 32768 < 65536 * fix16_to_int 32 98304 ∧
      65536 * fix16_to_int 32 98304 ≤ 98304 + 32768) ∧
    ((98304 : Int) % 65536 = 32768 → fix16_to_int 32 98304 = 98304 / 65536 + 1) :=
  fix16_to_int_nonneg_nearest 32 98304 (Or.inl rfl) (by decide) (by decide)

/-! ## Bit masks -/

/-- Masking with `0xFFFF0000` keeps bits 16 to 31. -/
theorem and_high_mask (u : Nat) : u &&& 0xFFFF0000 = u / 65536 % 65536 * 65536 := by
  have hmask : (0xFFFF0000 : Nat) = (2 ^ 16 - 1) <<< 16 := by decide
  have hrhs : u / 65536 % 65536 * 65536 = ((u >>> 16) % 2 ^ 16) <<< 16 := by
    rw [Nat.shiftLeft_eq, Nat.shiftRight_eq_div_pow]
    norm_num
  rw [hrhs, hmask]
  apply Nat.eq_of_testBit_eq
  intro j
  rw [Nat.testBit_and, Nat.testBit_shiftLeft, Nat.testBit_shiftLeft,
    Nat.testBit_two_pow_sub_one, Nat.testBit_mod_two_pow, Nat.testBit_shiftRight]
  by_cases hj : 16 ≤ j
  · have : 16 + (j - 16) = j := by omega
    rw [this]
    cases u.testBit j <;> simp
  · simp [hj]

/-- Masking with `0x0000FFFF` keeps bits 0 to 15. -/
theorem and_low_mask (u : Nat) : u &&& 0x0000FFFF = u % 65536 := by
  have hmask : (0x0000FFFF : Nat) = 2 ^ 16 - 1 := by decide
  rw [hmask, Nat.and_pow_two_sub_one_eq_mod]

/-- On `fix16_t` values `fix16_floor` is the integer floor to a multiple of `65536`. -/
theorem fix16_floor_eq (w : Nat) (x : Int) (hw : w = 32 ∨ w = 64) (hx : InInt32 x) :
    fix16_floor w x = x / 65536 * 65536 := by
  unfold InInt32 INT32_MIN INT32_MAX at hx
  unfold fix16_floor
  rw [and_high_mask]
  rcases hw with rfl | rfl <;>
  · unfold toInt32 toUnsigned
    omega

/-! ## C10: `fix16_floor` -/

/-- C10: for every `fix16_t` value `x` (negative values and the minimum included) and either
width of `unsigned long`, `fix16_floor(x)` is a `fix16_t` value, a multiple of `65536`, with
`fix16_floor(x) ≤ x < fix16_floor(x) + 65536` over the integers; every multiple of `65536`
that does not exceed `x` is at most `fix16_floor(x)`; and `fix16_floor` is idempotent. -/
theorem fix16_floor_greatest_multiple (w : Nat) (x : Int) (hw : w = 32 ∨ w = 64)
    (hx : InInt32 x) :
    InInt32 (fix16_floor w x) ∧
    fix16_floor w x % 65536 = 0 ∧
    fix16_floor w x ≤ x ∧ x < fix16_floor w x + 65536 ∧
    (∀ k : Int, k * 65536 ≤ x → k * 65536 ≤ fix16_floor w x) ∧
    fix16_floor w (fix16_floor w x) = fix16_floor w x := by
  have hf := fix16_floor_eq w x hw hx
  have hin : InInt32 (fix16_floor w x) := by
    rw [hf]
    unfold InInt32 INT32_MIN INT32_MAX at hx ⊢
    omega
  refine ⟨hin, ?_, ?_, ?_, ?_, ?_⟩
  · rw [hf]; omega
  · rw [hf]; omega
  · rw [hf]; omega
  · intro k hk
    rw [hf]; omega
  · rw [fix16_floor_eq w _ hw hin, hf]; omega

/-- C10 at the minimum value `x = -2147483648` with a 32-bit `unsigned long`. -/
theorem fix16_floor_greatest_multiple_witness :
    InInt32 (fix16_floor 32 (-2147483648)) ∧
    fix16_floor 32 (-2147483648) % 65536 = 0 ∧
    fix16_floor 32 (-2147483648) ≤ -2147483648 ∧
    -2147483648 < fix16_floor 32 (-2147483648) + 65536 ∧
    (∀ k : Int, k * 65536 ≤ -2147483648 → k * 65536 ≤ fix16_floor 32 (-2147483648)) ∧
    fix16_floor 32 (fix16_floor 32 (-2147483648)) = fix16_floor 32 (-2147483648) :=
  fix16_floor_greatest_multiple 32 (-2147483648) (Or.inl rfl) (by decide)

/-! ## C6: `fix16_floor` and the overflow sentinel -/

/-- C6 (counterexample): `x = -2147483647` is a `fix16_t` value different from the minimum,
and `fix16_floor(x)` is `-2147483648`, the value of `fix16_overflow`, for either width of
`unsigned long`. -/
theorem fix16_floor_reaches_sentinel :
    InInt32 (-2147483647) ∧ (-2147483647 : Int) ≠ toInt32 fix16_minimum ∧
    fix16_floor 32 (-2147483647) = toInt32 fix16_overflow ∧
    fix16_floor 64 (-2147483647) = toInt32 fix16_overflow := by
  decide

/-- C6 (amended): for every `fix16_t` value `x`, `fix16_floor(x)` is the overflow sentinel
exactly when `x < -2147418112` (`x` below `-32767.0`, whose floor `-32768.0` is the minimum);
so for every `x ≥ -2147418112` the value `fix16_floor(x)` is not `fix16_overflow`. -/
theorem fix16_floor_sentinel_iff (w : Nat) (x : Int) (hw : w = 32 ∨ w = 64)
    (hx : InInt32 x) :
    (fix16_floor w x = toInt32 fix16_overflow ↔ x < -2147418112) ∧
    (-2147418112 ≤ x → fix16_floor w x ≠ toInt32 fix16_overflow) := by
  have hf := fix16_floor_eq w x hw hx
  have ho : toInt32 fix16_overflow = -2147483648 := by decide
  unfold InInt32 INT32_MIN INT32_MAX at hx
  rw [hf, ho]
  constructor
  · constructor <;> intro h <;> omega
  · intro h; omega

/-- C6 (amended) at `x = -2147418112` (`-32767.0`) with a 32-bit `unsigned long`: the floor
is `x` itself, not the sentinel. -/
theorem fix16_floor_sentinel_iff_witness :
    (fix16_floor 32 (-2147418112) = toInt32 fix16_overflow ↔
      (-2147418112 : Int) < -2147418112) ∧
    ((-2147418112 : Int) ≤ -2147418112 →
      fix16_floor 32 (-2147418112) ≠ toInt32 fix16_overflow) :=
  fix16_floor_sentinel_iff 32 (-2147418112) (Or.inl rfl) (by decide)

/-! ## Decimal digit strings -/

/-- Digits written after a prefix add to the prefix shifted by their number. -/
theorem decimalValue_acc (acc : Nat) (ds : List (Fin 10)) :
    decimalValue acc ds = acc * 10 ^ ds.length + decimalValue 0 ds := by
  induction ds generalizing acc with
  | nil => simp [decimalValue]
  | cons d ds ih =>
    have h1 : decimalValue acc (d :: ds) = decimalValue (10 * acc + d.val) ds := rfl
    have h2 : decimalValue 0 (d :: ds) = decimalValue (10 * 0 + d.val) ds := rfl
    rw [h1, h2, ih (10 * acc + d.val), ih (10 * 0 + d.val), List.length_cons]
    ring

/-- A string of `k` digits denotes a number below `10 ^ k`. -/
theorem decimalValue_lt (ds : List (Fin 10)) : decimalValue 0 ds < 10 ^ ds.length := by
  induction ds with
  | nil => simp [decimalValue]
  | cons d ds ih =>
    have h2 : decimalValue 0 (d :: ds) = decimalValue (10 * 0 + d.val) ds := rfl
    rw [h2, decimalValue_acc, List.length_cons, pow_succ]
    have hd := d.isLt
    have hp : 0 < 10 ^ ds.length := Nat.pow_pos (by norm_num)
    nlinarith

/-- Appending `k` zeros multiplies by `10 ^ k`. -/
theorem decimalValue_replicate_zero (acc k : Nat) :
    decimalValue acc (List.replicate k (0 : Fin 10)) = acc * 10 ^ k := by
  induction k generalizing acc with
  | zero => simp [decimalValue]
  | succ k ih =>
    have h1 : decimalValue acc (List.replicate (k + 1) (0 : Fin 10))
        = decimalValue (10 * acc + (0 : Fin 10).val) (List.replicate k 0) := rfl
    rw [h1, ih]
    simp [pow_succ]
    ring

/-- The padded mantissa is the value of the digits scaled to five places. -/
theorem paddedMantissa_eq (m : List (Fin 10)) :
    paddedMantissa m = decimalValue 0 m * 10 ^ (5 - m.length) := by
  unfold paddedMantissa
  have : decimalValue 0 (m ++ List.replicate (5 - m.length) 0)
      = decimalValue (decimalValue 0 m) (List.replicate (5 - m.length) 0) := by
    unfold decimalValue
    rw [List.foldl_append]
  rw [this, decimalValue_replicate_zero]

/-- The padded mantissa of at most five digits is at most `99999`. -/
theorem paddedMantissa_le (m : List (Fin 10)) (h5 : m.length ≤ 5) :
    paddedMantissa m ≤ 99999 := by
  have hv := decimalValue_lt m
  rw [paddedMantissa_eq]
  have hp : 10 ^ m.length * 10 ^ (5 - m.length) = 100000 := by
    rw [← pow_add, Nat.add_sub_cancel' h5]; norm_num
  have hq : 0 < 10 ^ (5 - m.length) := Nat.pow_pos (by norm_num)
  nlinarith

/-- The fraction `0.m` has numerator `paddedMantissa m` over `100000`. -/
theorem decimal_fraction_eq (m : List (Fin 10)) (h5 : m.length ≤ 5) :
    (decimalValue 0 m : ℚ) / (10 : ℚ) ^ m.length = (paddedMantissa m : ℚ) / 100000 := by
  have hp : (10 : ℚ) ^ m.length * (10 : ℚ) ^ (5 - m.length) = 100000 := by
    rw [← pow_add, Nat.add_sub_cancel' h5]; norm_num
  have h1 : (10 : ℚ) ^ m.length ≠ 0 := pow_ne_zero _ (by norm_num)
  rw [paddedMantissa_eq, div_eq_div_iff h1 (by norm_num)]
  push_cast
  rw [mul_assoc, mul_comm ((10 : ℚ) ^ (5 - m.length)), hp]

/-! ## The mantissa conversion -/

/-- On its tabulated arguments `FIXMATH_CONSTANT_POW10` is the power of ten. -/
theorem FIXMATH_CONSTANT_POW10_eq (k : Nat) (hk : k ≤ 8) :
    FIXMATH_CONSTANT_POW10 (k : Int) = 10 ^ k := by
  interval_cases k <;> decide

/-- The 64-bit arithmetic of the mantissa conversion never wraps when the digit value `v` is
below `p1 ≤ 100000` and the padded value `M = v * p2` is at most `99999`. -/
theorem mantissa_arith (v p1 p2 M : Nat) (hv : v < p1) (hp1 : p1 ≤ 100000)
    (hM : v * p2 = M) (hM5 : M ≤ 99999) :
    uadd 64 (umul 64 (umul 64 (umul 64 (usub 64 ((1 * p1 + v) % 2 ^ 64) p1) p2) 100000) 65536)
      5000000000 / 10000000000 % 2 ^ 32
      = (M * 65536 * 100000 + 5000000000) / 10000000000 := by
  have a1 : (1 * p1 + v) % 2 ^ 64 = p1 + v := by omega
  have a2 : usub 64 (p1 + v) p1 = v := by unfold usub; omega
  have a3 : umul 64 v p2 = M := by unfold umul; rw [hM]; omega
  have a4 : umul 64 M 100000 = M * 100000 := by unfold umul; omega
  have a5 : umul 64 (M * 100000) 65536 = M * 100000 * 65536 := by unfold umul; omega
  have a6 : uadd 64 (M * 100000 * 65536) 5000000000 = M * 100000 * 65536 + 5000000000 := by
    unfold uadd; omega
  have a7 : M * 65536 * 100000 = M * 100000 * 65536 := Nat.mul_right_comm M 65536 100000
  rw [a1, a2, a3, a4, a5, a6, a7]
  omega

/-- The macro `FIXMATH_CONVERT_MANTISSA` computes the rounded quotient exactly. -/
theorem convert_mantissa_exact (m : List (Fin 10)) (h5 : m.length ≤ 5) :
    FIXMATH_CONVERT_MANTISSA m
      = (paddedMantissa m * 65536 * 100000 + 5000000000) / 10000000000 := by
  have hv := decimalValue_lt m
  have hM := paddedMantissa_le m h5
  have hlen : (5 : Int) - ((m.length : Nat) : Int) = ((5 - m.length : Nat) : Int) := by omega
  unfold FIXMATH_CONVERT_MANTISSA FIXMATH_TOKLEN
  simp only [Nat.add_sub_cancel]
  rw [hlen, FIXMATH_CONSTANT_POW10_eq _ (by omega), FIXMATH_CONSTANT_POW10_eq _ (by omega),
    decimalValue_acc 1 m]
  exact mantissa_arith _ _ _ _ hv
    (by calc 10 ^ m.length ≤ 10 ^ 5 := Nat.pow_le_pow_right (by norm_num) h5
          _ = 100000 := by norm_num)
    (paddedMantissa_eq m).symm hM

/-- Every exact intermediate of the mantissa conversion fits in 64 bits. -/
theorem mantissaIntermediates_lt (m : List (Fin 10)) (h5 : m.length ≤ 5) :
    ∀ v ∈ mantissaIntermediates m, v < 2 ^ 64 := by
  have hv := decimalValue_lt m
  have hM := paddedMantissa_le m h5
  rw [paddedMantissa_eq] at hM
  have hlen : (5 : Int) - ((m.length : Nat) : Int) = ((5 - m.length : Nat) : Int) := by omega
  have hp1 : 10 ^ m.length ≤ 100000 := by
    calc 10 ^ m.length ≤ 10 ^ 5 := Nat.pow_le_pow_right (by norm_num) h5
      _ = 100000 := by norm_num
  have hp2 : 10 ^ (5 - m.length) ≤ 100000 := by
    calc 10 ^ (5 - m.length) ≤ 10 ^ 5 := Nat.pow_le_pow_right (by norm_num) (by omega)
      _ = 100000 := by norm_num
  unfold mantissaIntermediates FIXMATH_TOKLEN
  simp only [Nat.add_sub_cancel]
  rw [hlen, FIXMATH_CONSTANT_POW10_eq _ (by omega), FIXMATH_CONSTANT_POW10_eq _ (by omega),
    decimalValue_acc 1 m]
  have hsub : 1 * 10 ^ m.length + decimalValue 0 m - 10 ^ m.length = decimalValue 0 m := by
    omega
  rw [hsub]
  intro x hx
  simp only [List.mem_cons, List.mem_singleton, List.not_mem_nil, or_false] at hx
  rcases hx with rfl | rfl | rfl | rfl | rfl | rfl | rfl | rfl <;> omega

/-- The rounded quotient is below `65536` and within half a unit, ties excluded. -/
theorem convert_mantissa_bounds (M r : Nat) (hM : M ≤ 99999)
    (hr : r = (M * 65536 * 100000 + 5000000000) / 10000000000) :
    r ≤ 65535 ∧ (r : Int) * 100000 - M * 65536 < 50000 ∧
      -50000 < (r : Int) * 100000 - M * 65536 := by
  subst hr
  omega

/-- The rounded quotient as a floor over the rationals, with an integer part added. -/
theorem floor_scaled (n M : Nat) :
    ⌊(n : ℚ) * 65536 + (M : ℚ) * 65536 / 100000 + 1 / 2⌋
      = (n : Int) * 65536 + ((M * 65536 * 100000 + 5000000000) / 10000000000 : Nat) := by
  have hlo : (M * 65536 * 100000 + 5000000000) / 10000000000 * 100000 ≤ M * 65536 + 50000 := by
    omega
  have hhi : M * 65536 + 50000
      < (M * 65536 * 100000 + 5000000000) / 10000000000 * 100000 + 100000 := by
    omega
  generalize (M * 65536 * 100000 + 5000000000) / 10000000000 = r at hlo hhi
  have hlo' : (r : ℚ) * 100000 ≤ (M : ℚ) * 65536 + 50000 := by exact_mod_cast hlo
  have hhi' : (M : ℚ) * 65536 + 50000 < (r : ℚ) * 100000 + 100000 := by exact_mod_cast hhi
  rw [Int.floor_eq_iff]
  push_cast
  constructor <;> linarith

/-- The rounded quotient `r` of a padded mantissa `M` is the integer nearest to
`M * 65536 / 100000`, and no integer lies exactly half-way. -/
theorem rounded_quotient_nearest (M r : Nat) (hM : M ≤ 99999)
    (hr : r = (M * 65536 * 100000 + 5000000000) / 10000000000) :
    |(r : ℚ) - (M : ℚ) * 65536 / 100000| < 1 / 2 ∧
    (∀ z : Int, z ≠ (r : Int) →
      |(r : ℚ) - (M : ℚ) * 65536 / 100000| < |(z : ℚ) - (M : ℚ) * 65536 / 100000|) ∧
    (∀ z : Int, |(z : ℚ) - (M : ℚ) * 65536 / 100000| ≠ 1 / 2) := by
  obtain ⟨_, hup, hdn⟩ := convert_mantissa_bounds M r hM hr
  have hup' : (r : ℚ) * 100000 - (M : ℚ) * 65536 < 50000 := by exact_mod_cast hup
  have hdn' : -50000 < (r : ℚ) * 100000 - (M : ℚ) * 65536 := by exact_mod_cast hdn
  have hnear : |(r : ℚ) - (M : ℚ) * 65536 / 100000| < 1 / 2 := by
    rw [abs_lt]
    constructor <;> linarith
  refine ⟨hnear, ?_, ?_⟩
  · intro z hz
    have hz1 : (1 : ℚ) ≤ |(z : ℚ) - (r : ℚ)| := by
      have hzi : (1 : Int) ≤ |z - (r : Int)| := Int.one_le_abs (sub_ne_zero.mpr hz)
      exact_mod_cast hzi
    have htri := abs_sub_le (z : ℚ) ((M : ℚ) * 65536 / 100000) (r : ℚ)
    rw [abs_sub_comm ((M : ℚ) * 65536 / 100000) (r : ℚ)] at htri
    linarith
  · intro z hz
    rcases (abs_eq (by norm_num : (0 : ℚ) ≤ 1 / 2)).mp hz with h | h
    · have hq : (z : ℚ) * 100000 - (M : ℚ) * 65536 = 50000 := by linarith
      have hi : z * 100000 - (M : Int) * 65536 = 50000 := by exact_mod_cast hq
      omega
    · have hq : (z : ℚ) * 100000 - (M : ℚ) * 65536 = -50000 := by linarith
      have hi : z * 100000 - (M : Int) * 65536 = -50000 := by exact_mod_cast hq
      omega

/-! ## C7: the fractional part of a literal -/

/-- C7: for every digit string `m` of 1 to 5 decimal digits, with `M` its value padded to five
digits (`M ≤ 99999`): `FIXMATH_CONVERT_MANTISSA(m)` is
`⌊(M * 65536 * 100000 + 5000000000) / 10000000000⌋`; it differs from `M * 65536 / 100000` by
less than `1/2`, so it is closer to it than any other integer; no integer is at distance
exactly `1/2` (no ties); it is at most `65535`, so `& 0xFFFF` leaves it unchanged; and every
exact intermediate of the computation is below `2 ^ 64`. -/
theorem FIXMATH_CONVERT_MANTISSA_rounds (m : List (Fin 10)) (_h1 : 1 ≤ m.length)
    (h5 : m.length ≤ 5) :
    paddedMantissa m ≤ 99999 ∧
    FIXMATH_CONVERT_MANTISSA m
      = (paddedMantissa m * 65536 * 100000 + 5000000000) / 10000000000 ∧
    |(FIXMATH_CONVERT_MANTISSA m : ℚ) - (paddedMantissa m : ℚ) * 65536 / 100000| < 1 / 2 ∧
    (∀ z : Int, z ≠ (FIXMATH_CONVERT_MANTISSA m : Int) →
      |(FIXMATH_CONVERT_MANTISSA m : ℚ) - (paddedMantissa m : ℚ) * 65536 / 100000|
        < |(z : ℚ) - (paddedMantissa m : ℚ) * 65536 / 100000|) ∧
    (∀ z : Int, |(z : ℚ) - (paddedMantissa m : ℚ) * 65536 / 100000| ≠ 1 / 2) ∧
    FIXMATH_CONVERT_MANTISSA m ≤ 65535 ∧
    FIXMATH_CONVERT_MANTISSA m &&& 0xFFFF = FIXMATH_CONVERT_MANTISSA m ∧
    (∀ v ∈ mantissaIntermediates m, v < 2 ^ 64) := by
  have hM := paddedMantissa_le m h5
  have hr := convert_mantissa_exact m h5
  have hle := (convert_mantissa_bounds _ _ hM hr).1
  obtain ⟨hnear, huniq, htie⟩ := rounded_quotient_nearest _ _ hM hr
  refine ⟨hM, hr, hnear, huniq, htie, hle, ?_, mantissaIntermediates_lt m h5⟩
  rw [and_low_mask]
  omega

/-- C7 at `m = 99999`, the largest mantissa: the converted value is `65535`. -/
theorem FIXMATH_CONVERT_MANTISSA_rounds_witness :
    FIXMATH_CONVERT_MANTISSA [9, 9, 9, 9, 9] = 65535 ∧
    paddedMantissa [9, 9, 9, 9, 9] = 99999 ∧
    FIXMATH_CONVERT_MANTISSA [9, 9, 9, 9, 9]
      = (paddedMantissa [9, 9, 9, 9, 9] * 65536 * 100000 + 5000000000) / 10000000000 ∧
    FIXMATH_CONVERT_MANTISSA [9, 9, 9, 9, 9] &&& 0xFFFF
      = FIXMATH_CONVERT_MANTISSA [9, 9, 9, 9, 9] :=
  ⟨by decide, by decide,
   (FIXMATH_CONVERT_MANTISSA_rounds [9, 9, 9, 9, 9] (by decide) (by decide)).2.1,
   (FIXMATH_CONVERT_MANTISSA_rounds [9, 9, 9, 9, 9] (by decide) (by decide)).2.2.2.2.2.2.1⟩

/-! ## The literal macro `F16C` -/

/-- With an integer part below `2 ^ 16` and a mantissa below `2 ^ 16` the shift and the
bitwise or of `FIXMATH_COMBINE_I_M` add up without loss. -/
theorem combine_eq (n : Nat) (m : List (Fin 10)) (hn : n ≤ 65535)
    (hr : FIXMATH_CONVERT_MANTISSA m ≤ 65535) :
    FIXMATH_COMBINE_I_M n m = n * 65536 + FIXMATH_CONVERT_MANTISSA m := by
  unfold FIXMATH_COMBINE_I_M ushl
  rw [and_low_mask, Nat.shiftLeft_eq,
    Nat.mod_eq_of_lt (by omega : FIXMATH_CONVERT_MANTISSA m < 65536),
    Nat.mod_eq_of_lt (by omega : n * 2 ^ 16 < 2 ^ 32)]
  have h := Nat.mul_add_lt_is_or (i := 16) (by omega : FIXMATH_CONVERT_MANTISSA m < 2 ^ 16) n
  rw [Nat.mul_comm n (2 ^ 16), ← h]
  omega

/-- The literal `F16C(n, m)` written without a sign. -/
theorem F16C_plus (n : Nat) (m : List (Fin 10)) (hn : n ≤ 32767)
    (hr : FIXMATH_CONVERT_MANTISSA m ≤ 65535) :
    F16C ⟨false, n⟩ m = (n : Int) * 65536 + (FIXMATH_CONVERT_MANTISSA m : Int) := by
  unfold F16C IntToken.value
  simp only [Bool.false_eq_true, if_false]
  have hu : toUnsigned 32 (n : Int) = n := by unfold toUnsigned; omega
  rw [hu, combine_eq n m (by omega) hr]
  unfold toInt32
  omega

/-- The literal `F16C(-n, m)` written with a leading `-`. -/
theorem F16C_minus (n : Nat) (m : List (Fin 10)) (hn : n ≤ 32767)
    (hr : FIXMATH_CONVERT_MANTISSA m ≤ 65535) :
    F16C ⟨true, n⟩ m = -((n : Int) * 65536 + (FIXMATH_CONVERT_MANTISSA m : Int)) := by
  unfold F16C IntToken.value
  simp only [if_true]
  have hu : toUnsigned 32 (-(n : Int) * -1) = n := by unfold toUnsigned; omega
  rw [hu, combine_eq n m (by omega) hr]
  unfold toInt32 uneg
  omega

/-- The rounded quotient of the mantissa alone as a floor over the rationals. -/
theorem floor_mantissa (M : Nat) :
    ⌊(M : ℚ) * 65536 / 100000 + 1 / 2⌋
      = ((M * 65536 * 100000 + 5000000000) / 10000000000 : Nat) := by
  have h := floor_scaled 0 M
  simpa using h

/-- The macro `F16` over the rationals at a non-negative decimal literal. -/
theorem F16_plus (n : Nat) (m : List (Fin 10)) (h5 : m.length ≤ 5) :
    F16 (decimalLiteral ⟨false, n⟩ m)
      = ⌊(n : ℚ) * 65536 + (paddedMantissa m : ℚ) * 65536 / 100000 + 1 / 2⌋ := by
  unfold F16 decimalLiteral truncToInt
  simp only [Bool.false_eq_true, if_false]
  rw [decimal_fraction_eq m h5]
  have hx : (0 : ℚ) ≤ (n : ℚ) + (paddedMantissa m : ℚ) / 100000 := by positivity
  rw [if_pos hx, if_pos (by positivity)]
  congr 1
  ring

/-- The macro `F16` over the rationals at a decimal literal written with a leading `-`. -/
theorem F16_minus (n : Nat) (m : List (Fin 10)) (h5 : m.length ≤ 5) :
    F16 (decimalLiteral ⟨true, n⟩ m)
      = -⌊(n : ℚ) * 65536 + (paddedMantissa m : ℚ) * 65536 / 100000 + 1 / 2⌋ := by
  unfold F16 decimalLiteral truncToInt
  simp only [if_true]
  rw [decimal_fraction_eq m h5]
  have hx : (0 : ℚ) ≤ (n : ℚ) + (paddedMantissa m : ℚ) / 100000 := by positivity
  by_cases h0 : (n : ℚ) + (paddedMantissa m : ℚ) / 100000 = 0
  · have hn : (n : ℚ) * 65536 + (paddedMantissa m : ℚ) * 65536 / 100000 + 1 / 2 = 1 / 2 := by
      linear_combination 65536 * h0
    rw [hn, h0]
    norm_num
  · have hpos : (0 : ℚ) < (n : ℚ) + (paddedMantissa m : ℚ) / 100000 :=
      lt_of_le_of_ne hx (Ne.symm h0)
    have hneg : ¬ (-((n : ℚ) + (paddedMantissa m : ℚ) / 100000) ≥ 0) := by
      intro h; linarith
    simp only [hneg, if_false]
    rw [if_neg (by linarith), ← Int.ceil_neg]
    congr 1
    ring

/-! ## C2: `F16C` builds the nearest constant -/

/-- C2: for every integer-part magnitude `n ≤ 32767` and every digit string `m` of 1 to 5
decimal digits, with `M` the value of `m` padded to five digits:
`F16C(n, m) = n * 65536 + ⌊M * 65536 / 100000 + 1/2⌋`; written with a leading `-`
(`n = 0` included) `F16C(-n, m)` is the negation of that value; both agree with `F16(i.m)`
evaluated over exact rationals; and `F16C(123,1234) = 8069015`, `F16C(3,14159) = fix16_pi`,
`F16C(2,71828) = fix16_e`. -/
theorem F16C_nearest_constant (n : Nat) (m : List (Fin 10)) (hn : n ≤ 32767)
    (_h1 : 1 ≤ m.length) (h5 : m.length ≤ 5) :
    F16C ⟨false, n⟩ m
      = (n : Int) * 65536 + ⌊(paddedMantissa m : ℚ) * 65536 / 100000 + 1 / 2⌋ ∧
    F16C ⟨true, n⟩ m
      = -((n : Int) * 65536 + ⌊(paddedMantissa m : ℚ) * 65536 / 100000 + 1 / 2⌋) ∧
    F16C ⟨false, n⟩ m = F16 (decimalLiteral ⟨false, n⟩ m) ∧
    F16C ⟨true, n⟩ m = F16 (decimalLiteral ⟨true, n⟩ m) ∧
    F16C ⟨false, 123⟩ [1, 2, 3, 4] = 8069015 ∧
    F16C ⟨false, 3⟩ [1, 4, 1, 5, 9] = toInt32 fix16_pi ∧
    F16C ⟨false, 2⟩ [7, 1, 8, 2, 8] = toInt32 fix16_e := by
  have hM := paddedMantissa_le m h5
  have hr := convert_mantissa_exact m h5
  have hle := (convert_mantissa_bounds _ _ hM hr).1
  have hp := F16C_plus n m hn hle
  have hq := F16C_minus n m hn hle
  rw [hr] at hp hq
  rw [F16_plus n m h5, F16_minus n m h5, floor_scaled, floor_mantissa]
  exact ⟨hp, hq, hp, hq, by decide, by decide, by decide⟩

/-- C2 at the literal `123.1234`, written without and with a leading `-`. -/
theorem F16C_nearest_constant_witness :
    F16C ⟨false, 123⟩ [1, 2, 3, 4]
      = (123 : Int) * 65536 + ⌊(paddedMantissa [1, 2, 3, 4] : ℚ) * 65536 / 100000 + 1 / 2⌋ ∧
    F16C ⟨true, 123⟩ [1, 2, 3, 4] = F16 (decimalLiteral ⟨true, 123⟩ [1, 2, 3, 4]) ∧
    F16C ⟨true, 123⟩ [1, 2, 3, 4] = -8069015 :=
  ⟨(F16C_nearest_constant 123 [1, 2, 3, 4] (by decide) (by decide) (by decide)).1,
   (F16C_nearest_constant 123 [1, 2, 3, 4] (by decide) (by decide) (by decide)).2.2.2.1,
   by decide⟩

/-! ## C4: the named constants -/

/-- C4: read as `fix16_t` values, `fix16_zero = 0`, `fix16_half = 32768 = 0.5 * 65536`,
`fix16_one = 65536`, `fix16_two = 131072 = 2 * 65536`, `fix16_pi = 205887` with
`|fix16_pi - 65536 * π| < 1/2`, and `fix16_e = 178145` with `|fix16_e - 65536 * e| < 1/2`. -/
theorem fix16_constants_nearest :
    toInt32 fix16_zero = 0 ∧
    toInt32 fix16_half = 32768 ∧ ((toInt32 fix16_half : Int) : ℝ) = 65536 * (1 / 2) ∧
    toInt32 fix16_one = 65536 ∧
    toInt32 fix16_two = 131072 ∧ ((toInt32 fix16_two : Int) : ℝ) = 65536 * 2 ∧
    toInt32 fix16_pi = 205887 ∧
    |((toInt32 fix16_pi : Int) : ℝ) - 65536 * Real.pi| < 1 / 2 ∧
    toInt32 fix16_e = 178145 ∧
    |((toInt32 fix16_e : Int) : ℝ) - 65536 * Real.exp 1| < 1 / 2 := by
  have hh : toInt32 fix16_half = 32768 := by decide
  have ht : toInt32 fix16_two = 131072 := by decide
  have hpi : toInt32 fix16_pi = 205887 := by decide
  have he : toInt32 fix16_e = 178145 := by decide
  have p1 := Real.pi_gt_d6
  have p2 := Real.pi_lt_d6
  have e1 := Real.exp_one_gt_d9
  have e2 := Real.exp_one_lt_d9
  refine ⟨by decide, hh, ?_, by decide, ht, ?_, hpi, ?_, he, ?_⟩
  · rw [hh]; norm_num
  · rw [ht]; norm_num
  · rw [hpi, abs_lt]; constructor <;> norm_num <;> linarith
  · rw [he, abs_lt]; constructor <;> norm_num <;> linarith

/-! ## `fix16_ceil` and `fix16_round`: auxiliary facts -/

/-- The low 16 bits tested by `fix16_ceil` vanish exactly when `x` is a multiple of
`65536`. -/
theorem low_bits_eq_zero_iff (w : Nat) (x : Int) (hw : w = 32 ∨ w = 64) :
    toUnsigned w x &&& 0x0000FFFF = 0 ↔ x % 65536 = 0 := by
  rw [and_low_mask]
  rcases hw with rfl | rfl <;>
  · unfold toUnsigned
    omega

/-- Up to `0x7FFF0000` the sum formed by `fix16_ceil` does not leave the `fix16_t` range. -/
theorem fix16_ceil_eq (w : Nat) (x : Int) (hw : w = 32 ∨ w = 64) (hx : InInt32 x)
    (hhi : x ≤ 2147418112) :
    fix16_ceil w x = x / 65536 * 65536 + (if x % 65536 ≠ 0 then 65536 else 0) := by
  unfold InInt32 INT32_MIN INT32_MAX at hx
  unfold fix16_ceil
  rw [and_high_mask, and_low_mask]
  rcases hw with rfl | rfl <;>
  · unfold toInt32 uadd toUnsigned fix16_one
    split <;> split <;> split <;> omega

/-- Above `0x7FFF0000` the sum formed by `fix16_ceil` is `0x80000000`, which reads as the
minimum. -/
theorem fix16_ceil_wraps (w : Nat) (x : Int) (hw : w = 32 ∨ w = 64) (hx : InInt32 x)
    (hlo : 2147418112 < x) : fix16_ceil w x = -2147483648 := by
  unfold InInt32 INT32_MIN INT32_MAX at hx
  unfold fix16_ceil
  rw [and_high_mask, and_low_mask]
  rcases hw with rfl | rfl <;>
  · unfold toInt32 uadd toUnsigned fix16_one
    split <;> split <;> omega

/-- Below `0x7FFF8000` the sum `x + 0x00008000UL` converted to `fix16_t` is `x + 32768`. -/
theorem fix16_round_eq (w : Nat) (x : Int) (hw : w = 32 ∨ w = 64) (hx : InInt32 x)
    (hhi : x < 2147450880) : fix16_round w x = (x + 32768) / 65536 * 65536 := by
  have hsum : toInt32 (uadd w (toUnsigned w x) 0x00008000) = x + 32768 := by
    unfold InInt32 INT32_MIN INT32_MAX at hx
    rcases hw with rfl | rfl <;>
    · unfold toInt32 uadd toUnsigned
      omega
  unfold fix16_round
  rw [hsum]
  apply fix16_floor_eq w _ hw
  unfold InInt32 INT32_MIN INT32_MAX at hx ⊢
  omega

/-! ## C11: `fix16_ceil` -/

/-- C11: for every `fix16_t` value `x` with `x ≤ 0x7FFF0000` and either width of
`unsigned long`, `fix16_ceil(x)` is a `fix16_t` value, a multiple of `65536`, with
`x ≤ fix16_ceil(x) < x + 65536`; every multiple of `65536` that is at least `x` is at least
`fix16_ceil(x)`; it equals `x` exactly when the low 16 bits of `x` are zero, and it is
`fix16_floor(x) + 65536` otherwise. -/
theorem fix16_ceil_least_multiple (w : Nat) (x : Int) (hw : w = 32 ∨ w = 64)
    (hx : InInt32 x) (hhi : x ≤ 2147418112) :
    InInt32 (fix16_ceil w x) ∧
    fix16_ceil w x % 65536 = 0 ∧
    x ≤ fix16_ceil w x ∧ fix16_ceil w x < x + 65536 ∧
    (∀ k : Int, x ≤ k * 65536 → fix16_ceil w x ≤ k * 65536) ∧
    (fix16_ceil w x = x ↔ toUnsigned w x &&& 0x0000FFFF = 0) ∧
    (toUnsigned w x &&& 0x0000FFFF ≠ 0 → fix16_ceil w x = fix16_floor w x + 65536) := by
  have hc := fix16_ceil_eq w x hw hx hhi
  have hf := fix16_floor_eq w x hw hx
  have hl := low_bits_eq_zero_iff w x hw
  unfold InInt32 INT32_MIN INT32_MAX at hx ⊢
  rw [hl, hf, hc]
  by_cases h0 : x % 65536 = 0
  · rw [if_neg (not_not.mpr h0)]
    refine ⟨by omega, by omega, by omega, by omega, ?_, ?_, ?_⟩
    · intro k hk; omega
    · constructor <;> intro _ <;> omega
    · intro h; exact absurd (hl.mpr h0) h
  · rw [if_pos h0]
    refine ⟨by omega, by omega, by omega, by omega, ?_, ?_, ?_⟩
    · intro k hk; omega
    · constructor <;> intro _ <;> omega
    · intro _; rfl

/-- C11 at `x = -1` with a 32-bit `unsigned long`: the unsigned sum wraps to `0`, which is the
ceiling. -/
theorem fix16_ceil_least_multiple_witness :
    fix16_ceil 32 (-1) = 0 ∧
    (InInt32 (fix16_ceil 32 (-1)) ∧
    fix16_ceil 32 (-1) % 65536 = 0 ∧
    -1 ≤ fix16_ceil 32 (-1) ∧ fix16_ceil 32 (-1) < -1 + 65536 ∧
    (∀ k : Int, -1 ≤ k * 65536 → fix16_ceil 32 (-1) ≤ k * 65536) ∧
    (fix16_ceil 32 (-1) = -1 ↔ toUnsigned 32 (-1) &&& 0x0000FFFF = 0) ∧
    (toUnsigned 32 (-1) &&& 0x0000FFFF ≠ 0 →
      fix16_ceil 32 (-1) = fix16_floor 32 (-1) + 65536)) :=
  ⟨by decide, fix16_ceil_least_multiple 32 (-1) (Or.inl rfl) (by decide) (by decide)⟩

/-! ## C12: `fix16_round` -/

/-- C12 (counterexample): `x = 0x7FFF0001` is a `fix16_t` value below `0x7FFF8000`;
`fix16_round(x)` is `0x7FFF0000` while `fix16_ceil(x)` is `-2147483648`, so
`fix16_round(x) ≤ fix16_ceil(x)` fails under signed comparison, for either width of
`unsigned long`. -/
theorem fix16_round_exceeds_ceil :
    InInt32 2147418113 ∧ (2147418113 : Int) < 2147450880 ∧
    fix16_round 32 2147418113 = 2147418112 ∧ fix16_ceil 32 2147418113 = -2147483648 ∧
    ¬ (fix16_round 32 2147418113 ≤ fix16_ceil 32 2147418113) ∧
    fix16_round 64 2147418113 = 2147418112 ∧ fix16_ceil 64 2147418113 = -2147483648 ∧
    ¬ (fix16_round 64 2147418113 ≤ fix16_ceil 64 2147418113) := by
  decide

/-- C12 (amended): for every `fix16_t` value `x` with `x < 0x7FFF8000` and either width of
`unsigned long`, `fix16_round(x) = 65536 * ⌊(x + 32768) / 65536⌋` over the integers; it is a
`fix16_t` value and a multiple of `65536` with `|fix16_round(x) - x| ≤ 32768`; when the low
16 bits of `x` are `0x8000` it is `x + 32768` (toward `+∞`, whatever the sign of `x`);
`fix16_floor(x) ≤ fix16_round(x)`; and `fix16_round(x) ≤ fix16_ceil(x)` when moreover
`x ≤ 0x7FFF0000`, whereas for `0x7FFF0000 < x` the value `fix16_ceil(x)` is `-2147483648`. -/
theorem fix16_round_nearest_multiple (w : Nat) (x : Int) (hw : w = 32 ∨ w = 64)
    (hx : InInt32 x) (hhi : x < 2147450880) :
    fix16_round w x = 65536 * ((x + 32768) / 65536) ∧
    InInt32 (fix16_round w x) ∧
    fix16_round w x % 65536 = 0 ∧
    |fix16_round w x - x| ≤ 32768 ∧
    (toUnsigned w x &&& 0x0000FFFF = 0x8000 → fix16_round w x = x + 32768) ∧
    fix16_floor w x ≤ fix16_round w x ∧
    (x ≤ 2147418112 → fix16_round w x ≤ fix16_ceil w x) ∧
    (2147418112 < x → fix16_ceil w x = -2147483648) := by
  have hr := fix16_round_eq w x hw hx hhi
  have hf := fix16_floor_eq w x hw hx
  have hlow : toUnsigned w x &&& 0x0000FFFF = 0x8000 → x % 65536 = 32768 := by
    rw [and_low_mask]
    rcases hw with rfl | rfl <;>
    · unfold toUnsigned
      omega
  refine ⟨by rw [hr]; omega, ?_, by rw [hr]; omega, ?_, ?_, by rw [hr, hf]; omega, ?_,
    fix16_ceil_wraps w x hw hx⟩
  · unfold InInt32 INT32_MIN INT32_MAX at hx ⊢
    rw [hr]; omega
  · rw [hr, abs_le]
    constructor <;> omega
  · intro h
    have := hlow h
    rw [hr]; omega
  · intro hle
    rw [hr, fix16_ceil_eq w x hw hx hle]
    split <;> omega

/-- C12 (amended) at the negative half-way value `x = -32768` (`-0.5`) with a 32-bit
`unsigned long`: the result is `0`. -/
theorem fix16_round_nearest_multiple_witness :
    fix16_round 32 (-32768) = 0 ∧
    (fix16_round 32 (-32768) = 65536 * ((-32768 + 32768) / 65536) ∧
    InInt32 (fix16_round 32 (-32768)) ∧
    fix16_round 32 (-32768) % 65536 = 0 ∧
    |fix16_round 32 (-32768) - (-32768)| ≤ 32768 ∧
    (toUnsigned 32 (-32768) &&& 0x0000FFFF = 0x8000 →
      fix16_round 32 (-32768) = -32768 + 32768) ∧
    fix16_floor 32 (-32768) ≤ fix16_round 32 (-32768) ∧
    ((-32768 : Int) ≤ 2147418112 → fix16_round 32 (-32768) ≤ fix16_ceil 32 (-32768)) ∧
    ((2147418112 : Int) < -32768 → fix16_ceil 32 (-32768) = -2147483648)) :=
  ⟨by decide, fix16_round_nearest_multiple 32 (-32768) (Or.inl rfl) (by decide) (by decide)⟩

/-! ## C13: `fix16_min`, `fix16_max` and `fix16_clamp` -/

/-- C13: for all `fix16_t` values `x`, `lo`, `hi` with `lo ≤ hi`, `fix16_clamp(x, lo, hi)` is
a `fix16_t` value in `[lo, hi]`; it is `x` when `lo ≤ x ≤ hi`, `lo` when `x < lo` and `hi`
when `x > hi`; clamping again changes nothing; and `fix16_min`, `fix16_max` are the signed
minimum and maximum of their two arguments. -/
theorem fix16_clamp_in_range (x lo hi : Int) (_hx : InInt32 x) (hlo : InInt32 lo)
    (hhi : InInt32 hi) (h : lo ≤ hi) :
    InInt32 (fix16_clamp x lo hi) ∧
    (lo ≤ fix16_clamp x lo hi ∧ fix16_clamp x lo hi ≤ hi) ∧
    (lo ≤ x ∧ x ≤ hi → fix16_clamp x lo hi = x) ∧
    (x < lo → fix16_clamp x lo hi = lo) ∧
    (x > hi → fix16_clamp x lo hi = hi) ∧
    fix16_clamp (fix16_clamp x lo hi) lo hi = fix16_clamp x lo hi ∧
    (∀ a b : Int, fix16_min a b = min a b ∧ fix16_max a b = max a b) := by
  have hmm : ∀ a b : Int, fix16_min a b = min a b ∧ fix16_max a b = max a b := by
    intro a b
    unfold fix16_min fix16_max
    constructor <;> split <;> omega
  have hc : fix16_clamp x lo hi = min (max x lo) hi := by
    unfold fix16_clamp
    rw [(hmm x lo).2, (hmm (max x lo) hi).1]
  have hcc : fix16_clamp (fix16_clamp x lo hi) lo hi
      = min (max (min (max x lo) hi) lo) hi := by
    rw [hc]
    unfold fix16_clamp
    rw [(hmm (min (max x lo) hi) lo).2, (hmm (max (min (max x lo) hi) lo) hi).1]
  unfold InInt32 INT32_MIN INT32_MAX at hlo hhi ⊢
  rw [hcc, hc]
  refine ⟨by omega, by omega, ?_, ?_, ?_, by omega, hmm⟩
  · intro hin; omega
  · intro hlt; omega
  · intro hgt; omega

/-- C13 at `x = 7`, `lo = -3`, `hi = 5`: the clamp is `hi`. -/
theorem fix16_clamp_in_range_witness :
    fix16_clamp 7 (-3) 5 = 5 ∧
    (InInt32 (fix16_clamp 7 (-3) 5) ∧
    ((-3 : Int) ≤ fix16_clamp 7 (-3) 5 ∧ fix16_clamp 7 (-3) 5 ≤ 5) ∧
    ((-3 : Int) ≤ 7 ∧ (7 : Int) ≤ 5 → fix16_clamp 7 (-3) 5 = 7) ∧
    ((7 : Int) < -3 → fix16_clamp 7 (-3) 5 = -3) ∧
    ((7 : Int) > 5 → fix16_clamp 7 (-3) 5 = 5) ∧
    fix16_clamp (fix16_clamp 7 (-3) 5) (-3) 5 = fix16_clamp 7 (-3) 5 ∧
    (∀ a b : Int, fix16_min a b = min a b ∧ fix16_max a b = max a b)) :=
  ⟨by decide, fix16_clamp_in_range 7 (-3) 5 (by decide) (by decide) (by decide) (by decide)⟩

end Fix16
